import Mathlib

/-!
Verification of the 2D point geometry library (`geometry.h` / `main_geometry.c`).

The C code operates on IEEE-754 binary64 (`double`) values.  We embed doubles
as an explicit datatype `Fp` (canonical NaN, signed infinities, and finite
values `±m·2^e`).  Every finite double is a dyadic rational, so the exact sum
and product of two finite doubles is `n·2^k` with integer `n`; addition and
multiplication round that exact value to nearest, ties to even, and square
root is correctly rounded via an integer square root.  All arithmetic is over
`Nat`/`Int` so that every operation evaluates by kernel reduction.

The four library functions (`createPoint`, `displayPoint`, `distanceToOrigin`,
`addPoints`) and the demonstration `main` are then translated directly from
`main_geometry.c`.
-/

set_option maxRecDepth 100000
set_option exponentiation.threshold 2000

namespace Geometry

/-- An IEEE-754 binary64 datum: canonical NaN, signed infinity (`true` =
negative), or a finite value `(-1)^sign * m * 2^e` (sign-magnitude; the two
signed zeros are `fin s 0 (-1074)`). -/
inductive Fp : Type where
  | nan : Fp
  | inf : Bool → Fp
  | fin : Bool → Nat → Int → Fp
deriving DecidableEq

/-- The canonical-representation predicate: `fin s m e` encodes an actual
binary64 bit pattern iff `-1074 ≤ e ≤ 971`, `m < 2^53`, and the mantissa is
normalised (`2^52 ≤ m` unless the value is subnormal, i.e. `e = -1074`).
Every real binary64 value has exactly one such representation; `nan` and
`inf` are always valid. -/
def Fp.Valid : Fp → Prop
  | .nan => True
  | .inf _ => True
  | .fin _ m e => -1074 ≤ e ∧ e ≤ 971 ∧ m < 2 ^ 53 ∧ (e = -1074 ∨ 2 ^ 52 ≤ m)

instance (x : Fp) : Decidable x.Valid := by
  cases x <;> unfold Fp.Valid <;> infer_instance

/-- Fuelled binary logarithm: `blAux f n` is `⌊log₂ n⌋` whenever `n ≤ f` and
`1 ≤ n` (structural recursion on the fuel, so it reduces in the kernel). -/
def blAux : Nat → Nat → Nat
  | 0, _ => 0
  | f + 1, n => if n < 2 then 0 else blAux f (n / 2) + 1

/-- `⌊log₂ n⌋` for `n ≥ 1` (0 at 0). -/
def ilog2 (n : Nat) : Nat := blAux n n

/-- Round `n / 2^j` to the nearest integer, ties to even. -/
def rnd (n j : Nat) : Nat :=
  let q := n / 2 ^ j
  let r := n % 2 ^ j
  let half := 2 ^ (j - 1)
  if r < half then q
  else if half < r then q + 1
  else if q % 2 = 0 then q else q + 1

/-- IEEE-754 round-to-nearest-even of the positive dyadic rational `n·2^k`
(`n ≥ 1`), with sign `s` attached: the mantissa is `n·2^k / 2^e1` rounded to
nearest-even for the result exponent `e1`, and a rounded magnitude of `2^1024`
or above overflows to a signed infinity. -/
def roundDy (s : Bool) (n : Nat) (k : Int) : Fp :=
  let e0 : Int := (ilog2 n : Int) + k
  let e1 : Int := max (e0 - 52) (-1074)
  let d : Int := k - e1
  let m1 : Nat := if 0 ≤ d then n * 2 ^ d.toNat else rnd n (-d).toNat
  if m1 = 2 ^ 53 then (if 971 < e1 + 1 then .inf s else .fin s (2 ^ 52) (e1 + 1))
  else if 971 < e1 then .inf s else .fin s m1 e1

/-- Positive zero, in particular the double value of the integer constants
`ORIGIN_X`/`ORIGIN_Y` (both `#define`d as `0` in `geometry.h`). -/
def Fp.zero : Fp := .fin false 0 (-1074)

/-- IEEE-754 negation (sign flip; NaN stays canonical NaN). -/
def Fp.neg : Fp → Fp
  | .nan => .nan
  | .inf s => .inf (!s)
  | .fin s m e => .fin (!s) m e

/-- IEEE-754 binary64 addition, round-to-nearest-even: NaN propagates,
`∞ + (-∞) = NaN`, an exact zero sum is `-0` only when both addends are `-0`,
and otherwise the exact (dyadic rational) sum is rounded. -/
def fadd : Fp → Fp → Fp
  | .nan, _ => .nan
  | _, .nan => .nan
  | .inf s1, .inf s2 => if s1 = s2 then .inf s1 else .nan
  | .inf s1, .fin _ _ _ => .inf s1
  | .fin _ _ _, .inf s2 => .inf s2
  | .fin s1 m1 e1, .fin s2 m2 e2 =>
    let e : Int := min e1 e2
    let a1 : Nat := m1 * 2 ^ (e1 - e).toNat
    let a2 : Nat := m2 * 2 ^ (e2 - e).toNat
    let n : Int := (if s1 then -(a1 : Int) else (a1 : Int))
      + (if s2 then -(a2 : Int) else (a2 : Int))
    if n = 0 then .fin (s1 && s2) 0 (-1074)
    else roundDy (decide (n < 0)) n.natAbs e

/-- IEEE-754 binary64 subtraction: `x - y = x + (-y)`. -/
def fsub (x y : Fp) : Fp := fadd x y.neg

/-- IEEE-754 binary64 multiplication, round-to-nearest-even: NaN propagates,
`∞ · 0 = NaN`, the result sign is the XOR of the operand signs, and a finite
nonzero exact product `m1·m2·2^(e1+e2)` is rounded. -/
def fmul : Fp → Fp → Fp
  | .nan, _ => .nan
  | _, .nan => .nan
  | .inf s1, .inf s2 => .inf (xor s1 s2)
  | .inf s1, .fin s2 m2 _ => if m2 = 0 then .nan else .inf (xor s1 s2)
  | .fin s1 m1 _, .inf s2 => if m1 = 0 then .nan else .inf (xor s1 s2)
  | .fin s1 m1 e1, .fin s2 m2 e2 =>
    if m1 * m2 = 0 then .fin (xor s1 s2) 0 (-1074)
    else roundDy (xor s1 s2) (m1 * m2) (e1 + e2)

/-- Fuelled integer square root: `sqrtAux f n = ⌊√n⌋` whenever `n ≤ f`
(digit-by-digit recursion on the fuel, so it reduces in the kernel). -/
def sqrtAux : Nat → Nat → Nat
  | 0, _ => 0
  | f + 1, n =>
    if n < 2 then n
    else
      let r := 2 * sqrtAux f (n / 4)
      if (r + 1) * (r + 1) ≤ n then r + 1 else r

/-- `⌊√n⌋`. -/
def isqrt (n : Nat) : Nat := sqrtAux n n

/-- IEEE-754 binary64 square root, round-to-nearest-even: `sqrt(NaN) = NaN`,
`sqrt(+∞) = +∞`, `sqrt(±0) = ±0`, negative arguments give NaN.  For a
positive finite `m·2^e` the result exponent is `e1 = ⌊log₂ √(m·2^e)⌋ - 52`
(always in the normal range for canonical inputs), and the mantissa is
`√(m·2^(e-2·e1))` rounded to nearest-even, decided exactly by comparing
`4·m·2^(e-2·e1)` with `(2n+1)^2` for `n` the integer square root. -/
def fsqrt : Fp → Fp
  | .nan => .nan
  | .inf s => if s then .nan else .inf false
  | .fin s m e =>
    if m = 0 then .fin s 0 (-1074)
    else if s then .nan
    else
      let t : Int := ((ilog2 m : Int) + e) / 2
      let e1 : Int := t - 52
      let N : Nat := m * 2 ^ (e - 2 * e1).toNat
      let n : Nat := isqrt N
      let m1 : Nat :=
        if 4 * N < (2 * n + 1) * (2 * n + 1) then n
        else if (2 * n + 1) * (2 * n + 1) < 4 * N then n + 1
        else if n % 2 = 0 then n else n + 1
      if m1 = 2 ^ 53 then .fin false (2 ^ 52) (e1 + 1) else .fin false m1 e1

/-- The binary64 datum denoted by a C `double` literal (or an `int` implicitly
converted to `double`) of exact value `n·2^k`: the correctly rounded value
(exact for every literal appearing in this repository). -/
def dbl (n k : Int) : Fp :=
  if n = 0 then Fp.zero else roundDy (decide (n < 0)) n.natAbs k

/-- The `Point` struct of `geometry.h`: two `double` fields `x` and `y`. -/
structure Point where
  x : Fp
  y : Fp
deriving DecidableEq

/-- `createPoint` from `main_geometry.c`: stores the two arguments unchanged. -/
def createPoint (x y : Fp) : Point := { x := x, y := y }

/-- `ORIGIN_X` from `geometry.h` (`#define ORIGIN_X 0`), as the double `0.0`
it converts to in `p.x - ORIGIN_X`. -/
def ORIGIN_X : Fp := Fp.zero

/-- `ORIGIN_Y` from `geometry.h` (`#define ORIGIN_Y 0`). -/
def ORIGIN_Y : Fp := Fp.zero

/-- `distanceToOrigin` from `main_geometry.c`:
`sqrt(deltaX*deltaX + deltaY*deltaY)` with `deltaX = p.x - ORIGIN_X`,
`deltaY = p.y - ORIGIN_Y`. -/
def distanceToOrigin (p : Point) : Fp :=
  let deltaX := fsub p.x ORIGIN_X
  let deltaY := fsub p.y ORIGIN_Y
  fsqrt (fadd (fmul deltaX deltaX) (fmul deltaY deltaY))

/-- `addPoints` from `main_geometry.c`: componentwise double addition. -/
def addPoints (p1 p2 : Point) : Point :=
  { x := fadd p1.x p2.x, y := fadd p1.y p2.y }

/-- `printf` rendering of a double with format `%.2f` (glibc semantics:
the exact binary value scaled by 100 is rounded to an integer, nearest, ties
to even; NaN renders as `nan`, infinities as `inf`/`-inf`, and the sign of a
negative zero is kept). -/
def fmt2 : Fp → String
  | .nan => "nan"
  | .inf s => if s then "-inf" else "inf"
  | .fin s m e =>
    let scaled : Nat := if 0 ≤ e then 100 * m * 2 ^ e.toNat else rnd (100 * m) (-e).toNat
    (if s then "-" else "") ++ toString (scaled / 100) ++ "." ++
      (if scaled % 100 < 10 then "0" else "") ++ toString (scaled % 100)

/-- `displayPoint` from `main_geometry.c`: the exact byte sequence written by
`printf("Point(x: %.2f, y: %.2f)\n", p.x, p.y)`. -/
def displayPoint (p : Point) : String :=
  "Point(x: " ++ fmt2 p.x ++ ", y: " ++ fmt2 p.y ++ ")\n"

/-- Writing to standard output modelled as appending to the stream contents:
`displayPoint p` called with output-so-far `out`. -/
def displayPointTo (p : Point) (out : String) : String :=
  out ++ displayPoint p

/-- `main` from `main_geometry.c`: the full standard-output transcript and the
exit code.  `p1 = createPoint(3.0, 4.0)`, `p2 = createPoint(-1.0, 2.5)`. -/
def mainRun : String × Int :=
  let p1 := createPoint (dbl 3 0) (dbl 4 0)
  let p2 := createPoint (dbl (-1) 0) (dbl 5 (-1))
  let out1 := "Point p1: " ++ displayPoint p1
  let out2 := "Point p2: " ++ displayPoint p2
  let dist1 := distanceToOrigin p1
  let out3 := "Distance of p1 from origin: " ++ fmt2 dist1 ++ "\n"
  let sumPoint := addPoints p1 p2
  let out4 := "Sum of p1 and p2: " ++ displayPoint sumPoint
  let dist2 := distanceToOrigin sumPoint
  let out5 := "Distance of sumPoint from origin: " ++ fmt2 dist2 ++ "\n"
  (out1 ++ out2 ++ out3 ++ out4 ++ out5, 0)

/-! ### Basic facts about the integer helpers -/

theorem blAux_spec : ∀ f n : Nat, 1 ≤ n → n ≤ f →
    2 ^ blAux f n ≤ n ∧ n < 2 ^ (blAux f n + 1) := by
  intro f
  induction f with
  | zero => intro n h1 h2; omega
  | succ f ih =>
    intro n h1 h2
    simp only [blAux]
    by_cases hn : n < 2
    · rw [if_pos hn]
      have : n = 1 := by omega
      subst this
      norm_num
    · rw [if_neg hn]
      obtain ⟨hl, hr⟩ := ih (n / 2) (by omega) (by omega)
      have e1 : 2 ^ (blAux f (n / 2) + 1) = 2 * 2 ^ blAux f (n / 2) := by ring
      have e2 : 2 ^ (blAux f (n / 2) + 1 + 1) = 2 * 2 ^ (blAux f (n / 2) + 1) := by ring
      omega

theorem ilog2_spec (n : Nat) (hn : 1 ≤ n) :
    2 ^ ilog2 n ≤ n ∧ n < 2 ^ (ilog2 n + 1) :=
  blAux_spec n n hn le_rfl

theorem ilog2_eq (a n : Nat) (h1 : 2 ^ a ≤ n) (h2 : n < 2 ^ (a + 1)) :
    ilog2 n = a := by
  have hn : 1 ≤ n := le_trans (Nat.one_le_two_pow) h1
  obtain ⟨l1, l2⟩ := ilog2_spec n hn
  rcases Nat.lt_trichotomy (ilog2 n) a with h | h | h
  · have hp : 2 ^ (ilog2 n + 1) ≤ 2 ^ a := Nat.pow_le_pow_right (by norm_num) (by omega)
    omega
  · exact h
  · have hp : 2 ^ (a + 1) ≤ 2 ^ ilog2 n := Nat.pow_le_pow_right (by norm_num) (by omega)
    omega

theorem ilog2_mul_pow (m j : Nat) (hm : 1 ≤ m) :
    ilog2 (m * 2 ^ j) = ilog2 m + j := by
  obtain ⟨l1, l2⟩ := ilog2_spec m hm
  apply ilog2_eq
  · calc 2 ^ (ilog2 m + j) = 2 ^ ilog2 m * 2 ^ j := by ring
    _ ≤ m * 2 ^ j := Nat.mul_le_mul_right _ l1
  · calc m * 2 ^ j < 2 ^ (ilog2 m + 1) * 2 ^ j :=
      Nat.mul_lt_mul_of_lt_of_le l2 le_rfl (Nat.two_pow_pos j)
    _ = 2 ^ (ilog2 m + j + 1) := by ring

theorem rnd_mul_pow (m j : Nat) : rnd (m * 2 ^ j) j = m := by
  unfold rnd
  have h1 : m * 2 ^ j / 2 ^ j = m := by
    rw [Nat.mul_div_assoc _ (dvd_refl _), Nat.div_self (Nat.two_pow_pos j), Nat.mul_one]
  have h2 : m * 2 ^ j % 2 ^ j = 0 := Nat.mul_mod_left _ _
  simp only [h1, h2]
  rw [if_pos (Nat.two_pow_pos (j - 1))]

/-- Round-to-nearest-even is the identity on canonically represented finite
values: rounding the dyadic `(m·2^j)·2^(e-j)` (any presentation of `m·2^e`)
gives back `fin s m e`. -/
theorem roundDy_shift (s : Bool) (m : Nat) (e : Int) (j : Nat)
    (h1 : -1074 ≤ e) (h2 : e ≤ 971) (h3 : m < 2 ^ 53)
    (h4 : e = -1074 ∨ 2 ^ 52 ≤ m) (hm : 1 ≤ m) :
    roundDy s (m * 2 ^ j) (e - j) = .fin s m e := by
  have hlog : ilog2 (m * 2 ^ j) = ilog2 m + j := ilog2_mul_pow m j hm
  obtain ⟨l1, l2⟩ := ilog2_spec m hm
  have hL : (e = -1074 ∧ ilog2 m ≤ 51) ∨ ilog2 m = 52 := by
    by_cases hc : 2 ^ 52 ≤ m
    · right
      refine ilog2_eq 52 m hc ?_
      norm_num
      omega
    · left
      refine ⟨by tauto, ?_⟩
      by_contra hgt
      have hp : 2 ^ 52 ≤ 2 ^ ilog2 m := Nat.pow_le_pow_right (by norm_num) (by omega)
      omega
  have hmax : max ((((ilog2 m + j : Nat) : Int) + (e - (j : Int))) - 52) (-1074) = e := by
    rcases hL with ⟨he, hle⟩ | h52
    · subst he
      have hle2 : ((ilog2 m : Nat) : Int) ≤ 51 := by exact_mod_cast hle
      push_cast
      omega
    · rw [h52]
      push_cast
      omega
  simp only [roundDy, hlog]
  rw [hmax]
  have hd : (e - (j : Int)) - e = -(j : Int) := by ring
  rw [hd]
  have hm1 : (if (0 : Int) ≤ -(j : Int) then (m * 2 ^ j) * 2 ^ ((-(j : Int)).toNat)
      else rnd (m * 2 ^ j) ((- -(j : Int)).toNat)) = m := by
    by_cases hj : j = 0
    · subst hj
      norm_num
    · rw [if_neg (by omega)]
      have ht : ((- -(j : Int)).toNat) = j := by omega
      rw [ht, rnd_mul_pow]
  rw [hm1]
  rw [if_neg (by omega : ¬m = 2 ^ 53)]
  rw [if_neg (by omega : ¬(971 : Int) < e)]

/-- Subtracting the double `0.0` returns the operand bit-for-bit (including
`-0 - 0 = -0` and the NaN/infinity cases). -/
theorem fsub_zero (x : Fp) (hx : x.Valid) : fsub x Fp.zero = x := by
  cases x with
  | nan => rfl
  | inf s => rfl
  | fin s m e =>
    obtain ⟨h1, h2, h3, h4⟩ := hx
    show fadd (.fin s m e) (.fin true 0 (-1074)) = .fin s m e
    by_cases hm : m = 0
    · subst hm
      have he : e = -1074 := by
        rcases h4 with h | h
        · exact h
        · norm_num at h
      subst he
      cases s <;> rfl
    · simp only [fadd]
      have hmin : min e (-1074 : Int) = -1074 := by omega
      rw [hmin]
      set j : Nat := (e - -1074).toNat with hj
      have hjval : (j : Int) = e + 1074 := by omega
      have ha1 : 1 ≤ m * 2 ^ j := Nat.mul_pos (by omega) (Nat.two_pow_pos j)
      have he2 : (-1074 : Int) = e - j := by omega
      cases s
      all_goals simp only [Nat.zero_mul, Nat.cast_zero, neg_zero, if_true, add_zero]
      · change (if ((m * 2 ^ j : Nat) : Int) = 0 then Fp.fin false 0 (-1074)
          else roundDy (decide (((m * 2 ^ j : Nat) : Int) < 0))
            ((m * 2 ^ j : Nat) : Int).natAbs (-1074)) = Fp.fin false m e
        rw [if_neg (by omega : ¬((m * 2 ^ j : Nat) : Int) = 0)]
        rw [show decide (((m * 2 ^ j : Nat) : Int) < 0) = false by
          simp only [decide_eq_false_iff_not]; omega]
        rw [Int.natAbs_ofNat, he2]
        exact roundDy_shift false m e j h1 h2 h3 h4 (by omega)
      · change (if -((m * 2 ^ j : Nat) : Int) = 0 then Fp.fin true 0 (-1074)
          else roundDy (decide (-((m * 2 ^ j : Nat) : Int) < 0))
            (-((m * 2 ^ j : Nat) : Int)).natAbs (-1074)) = Fp.fin true m e
        rw [if_neg (by omega : ¬-((m * 2 ^ j : Nat) : Int) = 0)]
        rw [show decide (-((m * 2 ^ j : Nat) : Int) < 0) = true by
          simp only [decide_eq_true_eq]; omega]
        rw [Int.natAbs_neg, Int.natAbs_ofNat, he2]
        exact roundDy_shift true m e j h1 h2 h3 h4 (by omega)

/-- IEEE-754 binary64 addition is commutative (bitwise, with canonical NaN). -/
theorem fadd_comm (x y : Fp) : fadd x y = fadd y x := by
  cases x with
  | nan => cases y <;> rfl
  | inf s1 =>
    cases y with
    | nan => rfl
    | inf s2 =>
      simp only [fadd]
      by_cases h : s1 = s2
      · subst h
        rfl
      · rw [if_neg h, if_neg (fun hc => h hc.symm)]
    | fin s2 m2 e2 => rfl
  | fin s1 m1 e1 =>
    cases y with
    | nan => rfl
    | inf s2 => rfl
    | fin s2 m2 e2 =>
      simp only [fadd]
      rw [min_comm e2 e1, Bool.and_comm s2 s1,
        Int.add_comm ((if s2 then -((m2 * 2 ^ (e2 - min e1 e2).toNat : Nat) : Int)
            else ((m2 * 2 ^ (e2 - min e1 e2).toNat : Nat) : Int)))
          ((if s1 then -((m1 * 2 ^ (e1 - min e1 e2).toNat : Nat) : Int)
            else ((m1 * 2 ^ (e1 - min e1 e2).toNat : Nat) : Int)))]

/-- Negation preserves canonical representations. -/
theorem valid_neg (x : Fp) (hx : x.Valid) : x.neg.Valid := by
  cases x
  · trivial
  · trivial
  · exact hx

/-- Squaring a negated value gives the same double: the sign bits XOR away
and the magnitude is unchanged. -/
theorem fmul_neg_self (x : Fp) : fmul x.neg x.neg = fmul x x := by
  cases x with
  | nan => rfl
  | inf s => cases s <;> rfl
  | fin s m e => cases s <;> rfl

/-- `roundDy` never produces NaN. -/
theorem roundDy_ne_nan (s : Bool) (n : Nat) (k : Int) : roundDy s n k ≠ .nan := by
  simp only [roundDy]
  repeat' split
  all_goals simp

/-- The shape of a nonnegative non-NaN square: `+∞` or an unsigned finite. -/
def NNShape (z : Fp) : Prop :=
  z = .inf false ∨ ∃ m e, z = .fin false m e

/-- `roundDy` with positive sign gives a nonnegative result. -/
theorem roundDy_false_shape (n : Nat) (k : Int) : NNShape (roundDy false n k) := by
  simp only [roundDy, NNShape]
  repeat' split
  all_goals first
    | (left; rfl)
    | (right; exact ⟨_, _, rfl⟩)

/-- The square of any non-NaN double is `+∞` or finite with positive sign
(in particular never NaN, never `-∞`). -/
theorem fmul_self_shape (z : Fp) (hz : z ≠ .nan) : NNShape (fmul z z) := by
  cases z with
  | nan => exact absurd rfl hz
  | inf s =>
    cases s
    · left; rfl
    · left; rfl
  | fin s m e =>
    simp only [fmul]
    split
    · right
      cases s <;> exact ⟨_, _, rfl⟩
    · have hx : xor s s = false := Bool.xor_self s
      rw [hx]
      exact roundDy_false_shape _ _

/-- Adding a nonnegative non-NaN value to `+∞` gives `+∞`. -/
theorem fadd_posinf_left (w : Fp) (hw : NNShape w) : fadd (.inf false) w = .inf false := by
  rcases hw with h | ⟨m, e, h⟩ <;> subst h <;> rfl

/-- Adding `+∞` to a nonnegative non-NaN value gives `+∞`. -/
theorem fadd_posinf_right (w : Fp) (hw : NNShape w) : fadd w (.inf false) = .inf false := by
  rcases hw with h | ⟨m, e, h⟩ <;> subst h <;> rfl

/-- `fadd` returns NaN when its second argument is NaN. -/
theorem fadd_nan_right (x : Fp) : fadd x .nan = .nan := by
  cases x <;> rfl

/-- `fadd` returns NaN when its first argument is NaN. -/
theorem fadd_nan_left (y : Fp) : fadd .nan y = .nan := by
  cases y <;> rfl

/-- Subtracting zero from a non-NaN double never gives NaN. -/
theorem fsub_zero_ne_nan (y : Fp) (hy : y ≠ .nan) : fsub y Fp.zero ≠ .nan := by
  cases y with
  | nan => exact absurd rfl hy
  | inf s => simp [fsub, fadd, Fp.neg, Fp.zero]
  | fin s m e =>
    show fadd (.fin s m e) (.fin true 0 (-1074)) ≠ .nan
    simp only [fadd]
    repeat' split
    all_goals first
      | exact roundDy_ne_nan _ _ _
      | simp

/-! ### The claims -/

/-- C1: for every Point with valid binary64 coordinates, `distanceToOrigin`
returns exactly `sqrt(p.x*p.x + p.y*p.y)` bit-for-bit, even though the
implementation computes it via the deltas `p.x - ORIGIN_X` and
`p.y - ORIGIN_Y` with `ORIGIN_X = ORIGIN_Y = 0`. -/
theorem c1_distance_eq_sqrt_sum_squares (x y : Fp) (hx : x.Valid) (hy : y.Valid) :
    distanceToOrigin (createPoint x y) = fsqrt (fadd (fmul x x) (fmul y y)) := by
  show fsqrt (fadd (fmul (fsub x Fp.zero) (fsub x Fp.zero))
    (fmul (fsub y Fp.zero) (fsub y Fp.zero))) = fsqrt (fadd (fmul x x) (fmul y y))
  rw [fsub_zero x hx, fsub_zero y hy]

/-- Witness for C1 at the concrete point (3.0, 4.0). -/
theorem c1_distance_eq_sqrt_sum_squares_witness :
    distanceToOrigin (createPoint (dbl 3 0) (dbl 4 0))
      = fsqrt (fadd (fmul (dbl 3 0) (dbl 3 0)) (fmul (dbl 4 0) (dbl 4 0))) :=
  c1_distance_eq_sqrt_sum_squares (dbl 3 0) (dbl 4 0) (by decide) (by decide)

/-- C2 (counterexample): `displayPoint(create(3.0,4.0))` does not emit exactly
the text `Point(x: 3.00, y: 4.00)`: the `printf` format string in
`main_geometry.c` ends with `\n`, so a trailing newline is also written. -/
theorem c2_display_counterexample :
    displayPoint (createPoint (dbl 3 0) (dbl 4 0)) ≠ "Point(x: 3.00, y: 4.00)" := by
  decide

/-- C2 (amended): `displayPoint` emits `Point(x: <x>, y: <y>)` with both
coordinates rounded to two decimal places, followed by a newline; in
particular `display(create(3.0,4.0))` produces exactly
`Point(x: 3.00, y: 4.00)` plus a trailing newline, and
`display(create(-1.0,2.5))` produces exactly `Point(x: -1.00, y: 2.50)` plus
a trailing newline. -/
theorem c2_display_amended :
    (∀ p : Point, displayPoint p = "Point(x: " ++ fmt2 p.x ++ ", y: " ++ fmt2 p.y ++ ")\n")
    ∧ displayPoint (createPoint (dbl 3 0) (dbl 4 0)) = "Point(x: 3.00, y: 4.00)\n"
    ∧ displayPoint (createPoint (dbl (-1) 0) (dbl 5 (-1))) = "Point(x: -1.00, y: 2.50)\n" :=
  ⟨fun _ => rfl, by decide, by decide⟩

/-- C3: `addPoints` returns the componentwise IEEE-754 double sum, and
`add(create(3,4), create(-1,2.5))` equals `create(2, 6.5)` exactly. -/
theorem c3_addPoints_componentwise :
    (∀ p1 p2 : Point, addPoints p1 p2 = createPoint (fadd p1.x p2.x) (fadd p1.y p2.y))
    ∧ addPoints (createPoint (dbl 3 0) (dbl 4 0)) (createPoint (dbl (-1) 0) (dbl 5 (-1)))
      = createPoint (dbl 2 0) (dbl 13 (-1)) :=
  ⟨fun _ _ => rfl, by decide⟩

/-- C4: `createPoint(x, y)` stores both coordinates exactly, with no rounding
or modification during construction (for arbitrary data, including NaN,
infinities and signed zeros). -/
theorem c4_createPoint_exact (x y : Fp) :
    (createPoint x y).x = x ∧ (createPoint x y).y = y :=
  ⟨rfl, rfl⟩

/-- C5: point addition is commutative, exactly, under IEEE-754 double
arithmetic (each field is a single double addition). -/
theorem c5_addPoints_comm (p1 p2 : Point) : addPoints p1 p2 = addPoints p2 p1 := by
  cases p1 with
  | mk x1 y1 =>
    cases p2 with
    | mk x2 y2 =>
      show Point.mk (fadd x1 x2) (fadd y1 y2) = Point.mk (fadd x2 x1) (fadd y2 y1)
      rw [fadd_comm x1 x2, fadd_comm y1 y2]

/-- C6: `distanceToOrigin` on special values: `(0,0) ↦ 0.0`, any NaN
coordinate gives NaN, and an infinite coordinate (with no NaN) gives `+∞`. -/
theorem c6_distance_special_values :
    distanceToOrigin (createPoint Fp.zero Fp.zero) = Fp.zero
    ∧ (∀ p : Point, p.x = Fp.nan ∨ p.y = Fp.nan → distanceToOrigin p = Fp.nan)
    ∧ (∀ p : Point, p.x ≠ Fp.nan → p.y ≠ Fp.nan →
        ((∃ s, p.x = Fp.inf s) ∨ (∃ s, p.y = Fp.inf s)) →
        distanceToOrigin p = Fp.inf false) := by
  refine ⟨by decide, ?_, ?_⟩
  · rintro ⟨px, py⟩ (h | h)
    · subst h
      show fsqrt (fadd (fmul (fsub Fp.nan Fp.zero) (fsub Fp.nan Fp.zero))
        (fmul (fsub py Fp.zero) (fsub py Fp.zero))) = Fp.nan
      rw [show fmul (fsub Fp.nan Fp.zero) (fsub Fp.nan Fp.zero) = Fp.nan from rfl,
        fadd_nan_left]
      rfl
    · subst h
      show fsqrt (fadd (fmul (fsub px Fp.zero) (fsub px Fp.zero))
        (fmul (fsub Fp.nan Fp.zero) (fsub Fp.nan Fp.zero))) = Fp.nan
      rw [show fmul (fsub Fp.nan Fp.zero) (fsub Fp.nan Fp.zero) = Fp.nan from rfl,
        fadd_nan_right]
      rfl
  · rintro ⟨px, py⟩ hx hy (⟨s, h⟩ | ⟨s, h⟩)
    · subst h
      show fsqrt (fadd (fmul (fsub (Fp.inf s) Fp.zero) (fsub (Fp.inf s) Fp.zero))
        (fmul (fsub py Fp.zero) (fsub py Fp.zero))) = Fp.inf false
      rw [show fmul (fsub (Fp.inf s) Fp.zero) (fsub (Fp.inf s) Fp.zero) = Fp.inf false by
          cases s <;> rfl,
        fadd_posinf_left _ (fmul_self_shape _ (fsub_zero_ne_nan py hy))]
      rfl
    · subst h
      show fsqrt (fadd (fmul (fsub px Fp.zero) (fsub px Fp.zero))
        (fmul (fsub (Fp.inf s) Fp.zero) (fsub (Fp.inf s) Fp.zero))) = Fp.inf false
      rw [show fmul (fsub (Fp.inf s) Fp.zero) (fsub (Fp.inf s) Fp.zero) = Fp.inf false by
          cases s <;> rfl,
        fadd_posinf_right _ (fmul_self_shape _ (fsub_zero_ne_nan px hx))]
      rfl

/-- Witness for C6's conditional clauses: a NaN coordinate and a `+∞`
coordinate at concrete points. -/
theorem c6_distance_special_values_witness :
    distanceToOrigin (createPoint Fp.nan Fp.zero) = Fp.nan
    ∧ distanceToOrigin (createPoint (Fp.inf false) Fp.zero) = Fp.inf false :=
  ⟨c6_distance_special_values.2.1 (createPoint Fp.nan Fp.zero) (Or.inl rfl),
   c6_distance_special_values.2.2 (createPoint (Fp.inf false) Fp.zero)
     (by decide) (by decide) (Or.inl ⟨false, rfl⟩)⟩

/-- C7: `distanceToOrigin(create(3,4)) = 5.0` exactly (3-4-5 triangle). -/
theorem c7_distance_3_4_is_5 :
    distanceToOrigin (createPoint (dbl 3 0) (dbl 4 0)) = dbl 5 0 := by
  decide

/-- C8: the demonstration `main` terminates with exit code 0 (and this
deterministic transcript); no operation it calls can fail. -/
theorem c8_main_exit_code_zero : mainRun.2 = 0 := rfl

/-- C9: `distanceToOrigin` is invariant, bit-for-bit, under negating both
coordinates and under swapping the coordinates. -/
theorem c9_distance_neg_swap_invariant (x y : Fp) (hx : x.Valid) (hy : y.Valid) :
    distanceToOrigin (createPoint x.neg y.neg) = distanceToOrigin (createPoint x y)
    ∧ distanceToOrigin (createPoint y x) = distanceToOrigin (createPoint x y) := by
  constructor
  · show fsqrt (fadd (fmul (fsub x.neg Fp.zero) (fsub x.neg Fp.zero))
      (fmul (fsub y.neg Fp.zero) (fsub y.neg Fp.zero)))
      = fsqrt (fadd (fmul (fsub x Fp.zero) (fsub x Fp.zero))
        (fmul (fsub y Fp.zero) (fsub y Fp.zero)))
    rw [fsub_zero _ (valid_neg x hx), fsub_zero _ (valid_neg y hy),
      fsub_zero x hx, fsub_zero y hy, fmul_neg_self, fmul_neg_self]
  · show fsqrt (fadd (fmul (fsub y Fp.zero) (fsub y Fp.zero))
      (fmul (fsub x Fp.zero) (fsub x Fp.zero)))
      = fsqrt (fadd (fmul (fsub x Fp.zero) (fsub x Fp.zero))
        (fmul (fsub y Fp.zero) (fsub y Fp.zero)))
    rw [fadd_comm]

/-- Witness for C9 at the concrete point (3.0, 4.0). -/
theorem c9_distance_neg_swap_invariant_witness :
    distanceToOrigin (createPoint (dbl 3 0).neg (dbl 4 0).neg)
      = distanceToOrigin (createPoint (dbl 3 0) (dbl 4 0))
    ∧ distanceToOrigin (createPoint (dbl 4 0) (dbl 3 0))
      = distanceToOrigin (createPoint (dbl 3 0) (dbl 4 0)) :=
  c9_distance_neg_swap_invariant (dbl 3 0) (dbl 4 0) (by decide) (by decide)

/-- C10: all four operations are deterministic pure functions of their
by-value arguments: bitwise-equal inputs give bitwise-equal results, and the
text `displayPoint` appends to the output stream depends only on the Point
argument, not on any other state. -/
theorem c10_operations_deterministic :
    (∀ x y x2 y2 : Fp, x = x2 → y = y2 → createPoint x y = createPoint x2 y2)
    ∧ (∀ p q : Point, p = q → distanceToOrigin p = distanceToOrigin q)
    ∧ (∀ p1 p2 q1 q2 : Point, p1 = q1 → p2 = q2 → addPoints p1 p2 = addPoints q1 q2)
    ∧ (∀ (p : Point) (out : String), displayPointTo p out = out ++ displayPoint p)
    ∧ (∀ (p : Point) (out1 out2 : String), ∃ t : String,
        displayPointTo p out1 = out1 ++ t ∧ displayPointTo p out2 = out2 ++ t) := by
  refine ⟨?_, ?_, ?_, ?_, ?_⟩
  · intro x y x2 y2 h1 h2
    rw [h1, h2]
  · intro p q h
    rw [h]
  · intro p1 p2 q1 q2 h1 h2
    rw [h1, h2]
  · intro p out
    rfl
  · intro p out1 out2
    exact ⟨displayPoint p, rfl, rfl⟩

/-- Witness for C10 at concrete inputs. -/
theorem c10_operations_deterministic_witness :
    createPoint (dbl 3 0) (dbl 4 0) = createPoint (dbl 3 0) (dbl 4 0)
    ∧ distanceToOrigin (createPoint (dbl 3 0) (dbl 4 0))
      = distanceToOrigin (createPoint (dbl 3 0) (dbl 4 0)) :=
  ⟨c10_operations_deterministic.1 (dbl 3 0) (dbl 4 0) (dbl 3 0) (dbl 4 0) rfl rfl,
   c10_operations_deterministic.2.1 (createPoint (dbl 3 0) (dbl 4 0))
     (createPoint (dbl 3 0) (dbl 4 0)) rfl⟩

end Geometry
